import Mathlib

/-!
# routegroup: route registration, middleware layering and path parameters

A shallow embedding of `routegroup.go` (package `github.com/i-core/routegroup`).

* HTTP handlers are state transformers over an arbitrary world `σ` (the world
  holds whatever a handler can touch: the recorded responses, counters, flags).
* `context.Context` is the immutable chain of `(key, value)` entries that
  `context.WithValue` builds.
* The router's two collaborators, the path-matching engine and the middleware
  chain builder, live outside the repository. The router is written against
  the engine's API (`EngineAPI`), so every statement about the glue code holds
  for every engine; `HttpRouter` is a concrete engine for the statements that
  need route matching.
-/

namespace routegroup

/-! ## Go values -/

/-- A Go `map[string]string`, kept as an association list with unique keys. -/
abbrev GoMap := List (String × String)

/-- Go `make(map[string]string)`. -/
def GoMap.make : GoMap := []

/-- Go `m[k]` on a `map[string]string`: the stored value, or the zero value
`""` when the key is absent. -/
def GoMap.get (m : GoMap) (k : String) : String :=
  match m.lookup k with
  | some v => v
  | none => ""

/-- Go `m[k] = v`: the entry for `k` is replaced or created. -/
def GoMap.set (m : GoMap) (k v : String) : GoMap :=
  (k, v) :: m.filter (fun e => e.1 != k)

/-- Keys a context value can be stored under. `pathParamsContextKey` is the
package's own key (a value of the unexported type `pathParamsContextKeyType`),
`user` stands for every key of another package. -/
inductive CtxKey where
  | pathParamsContextKey : CtxKey
  | user (name : String) : CtxKey
  deriving DecidableEq, Repr

/-- Values stored in a context (Go `interface{}`): a `map[string]string`, or
a value of some other dynamic type. -/
inductive CtxVal where
  | stringMap (m : GoMap) : CtxVal
  | other (v : String) : CtxVal
  deriving DecidableEq, Repr

/-- Go `context.Context`: `context.Background()` or a `valueCtx` made by
`context.WithValue`, which points at its parent and never changes it. -/
inductive Context where
  | background : Context
  | valueCtx (parent : Context) (key : CtxKey) (val : CtxVal) : Context
  deriving DecidableEq, Repr

/-- Go `context.WithValue(parent, key, val)`. -/
def WithValue (parent : Context) (key : CtxKey) (val : CtxVal) : Context :=
  Context.valueCtx parent key val

/-- Go `ctx.Value(key)`: the innermost entry stored under `key`, `none` (Go
`nil`) when there is none. -/
def Context.Value : Context → CtxKey → Option CtxVal
  | Context.background, _ => none
  | Context.valueCtx parent key val, k => if k = key then some val else parent.Value k

/-- Go `*http.Request`, reduced to what routing reads: the method, the URL
path and the context. -/
structure Request where
  Method : String
  Path : String
  ctx : Context
  deriving DecidableEq, Repr

/-- Go `r.Context()`. -/
def Request.Context (r : Request) : routegroup.Context := r.ctx

/-- Go `r.WithContext(ctx)`: a shallow copy of the request carrying `ctx`. -/
def Request.WithContext (r : Request) (ctx : routegroup.Context) : Request :=
  { r with ctx := ctx }

/-- Go `http.ResponseWriter`: a handle on the response being written; what has
been written through it is part of the world `σ`. -/
structure ResponseWriter where
  id : Nat
  deriving DecidableEq, Repr

/-- Go `http.Handler`: `ServeHTTP(w, r)` as a transformer of the world. -/
abbrev Handler (σ : Type) := ResponseWriter → Request → σ → σ

/-- Go `func(http.Handler) http.Handler`. -/
abbrev Middleware (σ : Type) := Handler σ → Handler σ

/-- Go `httprouter.Param`. -/
structure Param where
  Key : String
  Value : String
  deriving DecidableEq, Repr

/-- Go `httprouter.Params`. -/
abbrev Params := List Param

/-- Go `httprouter.Handle`: a handler that also receives the extracted
parameters. -/
abbrev Handle (σ : Type) := ResponseWriter → Request → Params → σ → σ

/-! ## The middleware chain builder -/

/-- Go `alice.Chain`. -/
structure Chain (σ : Type) where
  constructors : List (Middleware σ)

/-- Go `alice.New(constructors...)`. -/
def alice.New {σ : Type} (constructors : List (Middleware σ)) : Chain σ :=
  { constructors := constructors }

/-- Modelled from the spec: the Middleware Chain Builder (`alice`) is an
external collaborator whose source is not in the repository; "given an ordered
sequence of handler-wrapping functions and a final handler, produces a single
composed handler that invokes wrappers outer-to-inner". `Then` walks the
constructors from the last to the first, wrapping the handler built so far. -/
def Chain.Then {σ : Type} (c : Chain σ) (h : Handler σ) : Handler σ :=
  c.constructors.reverse.foldl (fun acc ctr => ctr acc) h

/-- The spec's wording of "outermost-first" composition:
`nest [mw1, ..., mwn] h = mw1 (mw2 (... (mwn h)))`. -/
def nest {σ : Type} : List (Middleware σ) → Handler σ → Handler σ
  | [], h => h
  | mw :: rest, h => mw (nest rest h)

/-- The loop `for _, mw := range mws { ctrs = append(ctrs, mw) }` that both
`NewRouter` and `AddRoutes` run on their variadic middleware. -/
def appendAll {σ : Type} (mws : List (Middleware σ)) : List (Middleware σ) :=
  mws.foldl (fun ctrs mw => ctrs ++ [mw]) []

/-! ## The router -/

/-- The part of `*httprouter.Router` the package calls: `Handle` registers a
handle under a method and a path, `ServeHTTP` dispatches a request. `E` is the
engine's state. -/
structure EngineAPI (E σ : Type) where
  Handle : E → String → String → Handle σ → E
  ServeHTTP : E → Handler σ

/-- Go `Router`. The embedded `http.Handler` is `alice.New(ctrs...).Then(impl)`
and `impl` is a pointer, so the handler always dispatches on the engine's
current state: the model keeps the chain and rebuilds the handler from it. -/
structure Router (E σ : Type) where
  api : EngineAPI E σ
  chain : Chain σ
  impl : E

/-- The `http.Handler` embedded in `Router`: `alice.New(ctrs...).Then(impl)`. -/
def Router.Handler {E σ : Type} (rt : Router E σ) : routegroup.Handler σ :=
  rt.chain.Then (rt.api.ServeHTTP rt.impl)

/-- Go `rt.ServeHTTP(w, r)`, promoted from the embedded handler. -/
def Router.ServeHTTP {E σ : Type} (rt : Router E σ) : routegroup.Handler σ :=
  rt.Handler

/-- Go `NewRouter(mws...)`; `new` is the engine `httprouter.New()` returns. -/
def NewRouter {E σ : Type} (api : EngineAPI E σ) (new : E) (mws : List (Middleware σ)) :
    Router E σ :=
  let ctrs := appendAll mws
  let impl := new
  { api := api, chain := alice.New ctrs, impl := impl }

/-- Go `(*Router).handler`: registers with the engine a handle that copies the
extracted parameters into a fresh map, stores the map in a context derived
from the request's and serves the request carrying that context. -/
def Router.handler {E σ : Type} (rt : Router E σ) (method path : String)
    (handler : routegroup.Handler σ) : Router E σ :=
  { rt with
    impl := rt.api.Handle rt.impl method path
              (fun w r ps =>
                let v := ps.foldl (fun v p => GoMap.set v p.Key p.Value) GoMap.make
                let ctx := WithValue r.Context CtxKey.pathParamsContextKey (CtxVal.stringMap v)
                let r := r.WithContext ctx
                handler w r) }

/-- One call `apply(m, p, h, mws...)` made by a `RouteAdder`. -/
structure ApplyCall (σ : Type) where
  m : String
  p : String
  h : Handler σ
  mws : List (Middleware σ)

/-- Go `RouteAdder`: a value whose `AddRoutes(apply)` calls `apply` once per
route. An adder is given by the calls it makes, in order. -/
abbrev RouteAdder (σ : Type) := List (ApplyCall σ)

/-- Go `adder.AddRoutes(apply)`: `apply` acts on the state `S` it closes over. -/
def RouteAdder.AddRoutes {σ S : Type} (adder : RouteAdder σ)
    (apply : String → String → Handler σ → List (Middleware σ) → S → S) (s : S) : S :=
  adder.foldl (fun s c => apply c.m c.p c.h c.mws s) s

/-- Go `(*Router).AddRoutes(adder, pfx)`. -/
def Router.AddRoutes {E σ : Type} (rt : Router E σ) (adder : RouteAdder σ) (pfx : String) :
    Router E σ :=
  RouteAdder.AddRoutes adder
    (fun m p h mws rt =>
      let ctrs := appendAll mws
      rt.handler m (pfx ++ p) ((alice.New ctrs).Then h))
    rt

/-- Go `PathParam(ctx, key)`. -/
def PathParam (ctx : Context) (key : String) : String :=
  match ctx.Value CtxKey.pathParamsContextKey with
  | some (CtxVal.stringMap ps) => GoMap.get ps key
  | _ => ""

/-- The spec's wording of the parameter-injection wrapper around `h`: build the
Path Parameter Map from the extracted list, derive a context that stores it
under the package key, and invoke `h` with a request carrying that context. -/
def inject {σ : Type} (h : Handler σ) : Handle σ :=
  fun w r ps =>
    h w (r.WithContext (WithValue r.Context CtxKey.pathParamsContextKey
      (CtxVal.stringMap (ps.foldl (fun v p => GoMap.set v p.Key p.Value) GoMap.make))))

/-- The order of section 2 of the spec ("per-route middleware chain →
parameter-injection wrapper → user handler") as a handle: the per-route chain
is outermost and the injection wrapper sits between it and the handler. -/
def specOrderHandle {σ : Type} (mws : List (Middleware σ)) (h : Handler σ) : Handle σ :=
  fun w r ps => nest mws (fun w2 r2 => inject h w2 r2 ps) w r

/-- The spec's wording of "last-write-wins": the value of the last pair of `ps`
named `k`, and `""` when no pair has that name. -/
def lastValue (ps : Params) (k : String) : String :=
  match ps.reverse.find? (fun p => p.Key == k) with
  | some p => p.Value
  | none => ""

/-! ## Engines -/

/-- One registration: the method, the path and the handle given to
`Handle(method, path, handle)`. -/
structure Route (σ : Type) where
  method : String
  path : String
  handle : Handle σ

/-- An engine that only records the registrations it receives, in order. -/
abbrev Recorder (σ : Type) := List (Route σ)

/-- The recording engine: `Handle` appends the registration, `ServeHTTP`
dispatches nothing. -/
def Recorder.api {σ : Type} : EngineAPI (Recorder σ) σ :=
  { Handle := fun e method path handle =>
      e ++ [{ method := method, path := path, handle := handle }]
    ServeHTTP := fun _ _ _ s => s }

/-- Runs every recorded handle on `(w, r, ps)` from the world `s`. -/
def Recorder.run {σ : Type} (e : Recorder σ) (w : ResponseWriter) (r : Request) (ps : Params)
    (s : σ) : List σ :=
  e.map (fun rte => rte.handle w r ps s)

/-- Modelled from the spec: part of the Path-Matching Engine. The segments of
a path are the pieces between the `/` separators. -/
def segments : List Char → List (List Char)
  | [] => [[]]
  | c :: cs =>
    if c = '/' then [] :: segments cs
    else
      match segments cs with
      | [] => [[c]]
      | seg :: segs => (c :: seg) :: segs

/-- Modelled from the spec: part of the Path-Matching Engine ("literal
segments plus named-parameter segments, a leading marker before a segment
name denotes a capturable variable"). A pattern segment with the leading
marker `:` captures the (non-empty) path segment under its name, any other
segment must be equal to the path segment. -/
def matchSegments : List (List Char) → List (List Char) → Option Params
  | [], [] => some []
  | pat :: pats, seg :: segs =>
    match pat with
    | [] => if seg = [] then matchSegments pats segs else none
    | c :: name =>
      if c = ':' then
        if seg = [] then none
        else (matchSegments pats segs).map
          (fun ps => { Key := String.mk name, Value := String.mk seg } :: ps)
      else if c :: name = seg then matchSegments pats segs else none
  | _, _ => none

/-- Modelled from the spec: part of the Path-Matching Engine. The parameters
a path pattern extracts from a request path, `none` when the pattern does not
match the path. -/
def matchPath (pattern path : String) : Option Params :=
  matchSegments (segments pattern.data) (segments path.data)

/-- Modelled from the spec: the Path-Matching Engine (`httprouter`) is an
external collaborator whose source is not in the repository. "Given a method
and URL path pattern, stores a handler and matches incoming requests,
producing extracted named parameters"; patterns are "literal segments plus
named-parameter segments"; a duplicate method+path is "a fatal startup
failure" (`panicked`), as is a path that does not begin with `/`; without a
matching route "the engine's default not-found behavior applies" (`NotFound`).
The table keeps the registrations in order and dispatch takes the first route
of the request's method whose pattern matches. -/
structure HttpRouter (σ : Type) where
  routes : List (Route σ)
  panicked : Bool
  NotFound : Handler σ

/-- Go `httprouter.New()`; `notFound` is the engine's not-found behaviour. -/
def HttpRouter.New {σ : Type} (notFound : Handler σ) : HttpRouter σ :=
  { routes := [], panicked := false, NotFound := notFound }

/-- Modelled from the spec: `(*httprouter.Router).Handle(method, path,
handle)` of the Path-Matching Engine. A duplicate method+path and a path that
does not begin with `/` panic; a panic aborts the program, so a panicked
engine accepts nothing more. -/
def HttpRouter.Handle {σ : Type} (e : HttpRouter σ) (method path : String)
    (handle : routegroup.Handle σ) : HttpRouter σ :=
  if e.panicked then e
  else if path.data.head? ≠ some '/' then { e with panicked := true }
  else if e.routes.any (fun rte => decide (rte.method = method ∧ rte.path = path)) then
    { e with panicked := true }
  else { e with routes := e.routes ++ [{ method := method, path := path, handle := handle }] }

/-- The parameters route `rte` extracts from a request, `none` when the route
does not match it. -/
def Route.matchRequest {σ : Type} (rte : Route σ) (r : Request) : Option Params :=
  if rte.method = r.Method then matchPath rte.path r.Path else none

/-- Modelled from the spec: the lookup of the Path-Matching Engine, the first
matching route and its parameters. -/
def HttpRouter.lookup {σ : Type} (e : HttpRouter σ) (r : Request) :
    Option (routegroup.Handle σ × Params) :=
  e.routes.findSome? (fun rte => (rte.matchRequest r).map (fun ps => (rte.handle, ps)))

/-- Modelled from the spec: `(*httprouter.Router).ServeHTTP(w, r)`, the
dispatch entry point of the Path-Matching Engine: the handle of the matched
route is served with the extracted parameters, and the not-found behaviour
when no route matches. -/
def HttpRouter.ServeHTTP {σ : Type} (e : HttpRouter σ) : routegroup.Handler σ :=
  fun w r s =>
    match e.lookup r with
    | some (handle, ps) => handle w r ps s
    | none => e.NotFound w r s

/-- The engine `HttpRouter` behind the `EngineAPI`. -/
def HttpRouter.api {σ : Type} : EngineAPI (HttpRouter σ) σ :=
  { Handle := HttpRouter.Handle, ServeHTTP := HttpRouter.ServeHTTP }

/-- The registrations `AddRoutes` hands to the engine for the calls of
`adder` under the prefix `pfx`, in order. -/
def registrations {σ : Type} (adder : RouteAdder σ) (pfx : String) : List (Route σ) :=
  adder.map (fun c =>
    { method := c.m, path := pfx ++ c.p, handle := inject (nest c.mws c.h) })

/-- The engine after `Handle` has been called for each registration of `rs`. -/
def HttpRouter.handleAll {σ : Type} (e : HttpRouter σ) (rs : List (Route σ)) : HttpRouter σ :=
  rs.foldl (fun e rte => e.Handle rte.method rte.path rte.handle) e

/-- Joins segments with `/`: the inverse of `segments`. -/
def unsegments : List (List Char) → List Char
  | [] => []
  | [seg] => seg
  | seg :: rest => seg ++ '/' :: unsegments rest

/-- Go `NewRouter(mws...)` over the engine `HttpRouter`. -/
def newHttpRouter {σ : Type} (notFound : Handler σ) (mws : List (Middleware σ)) :
    Router (HttpRouter σ) σ :=
  NewRouter HttpRouter.api (HttpRouter.New notFound) mws

/-- A path pattern without a parameter marker (`:`) or a wildcard (`*`). -/
def isLiteral (path : String) : Bool :=
  path.data.all (fun c => decide (c ≠ ':' ∧ c ≠ '*'))

/-! ## The fixtures of `routegroup_test.go` -/

/-- The world of the tests: which test handlers ran (Go sets `h.called`; the
list also counts the runs), `testMiddleware.calls`, `gotParam` of
`TestPathParam`, and a log of what was seen on entry. -/
structure TestWorld where
  called : List String
  calls : Nat
  gotParam : String
  seen : List (String × String)
  deriving DecidableEq, Repr

/-- The world before any request is served. -/
def TestWorld.init : TestWorld :=
  { called := [], calls := 0, gotParam := "", seen := [] }

/-- Go `testHandler`, told apart by a name. -/
structure testHandler where
  name : String
  fn : Option (Handler TestWorld)

/-- Go `(*testHandler).ServeHTTP`. -/
def testHandler.ServeHTTP (h : testHandler) : Handler TestWorld :=
  fun w r s =>
    let s := { s with called := s.called ++ [h.name] }
    match h.fn with
    | some fn => fn w r s
    | none => s

/-- Go `testRoute`. -/
structure testRoute where
  method : String
  path : String
  handler : testHandler

/-- Go `testRouteAdder` with its `AddRoutes`: `apply(r.method, r.path,
r.handler)` for each route, without per-route middleware. -/
def testRouteAdder (a : List testRoute) : RouteAdder TestWorld :=
  a.map (fun r => { m := r.method, p := r.path, h := r.handler.ServeHTTP, mws := [] })

/-- A middleware that performs `f` on entry and then serves the next handler
once, with the request it received. -/
def entering {σ : Type} (f : ResponseWriter → Request → σ → σ) : Middleware σ :=
  fun next w r s => next w r (f w r s)

/-- Go `(*testMiddleware).newInstance`: `m.calls++`, then the next handler. -/
def testMiddleware.newInstance : Middleware TestWorld :=
  entering (fun _ _ s => { s with calls := s.calls + 1 })

/-- A middleware that logs, on entry, what `PathParam(r.Context(), key)`
returns to it. -/
def observeParam (name key : String) : Middleware TestWorld :=
  entering (fun _ r s => { s with seen := s.seen ++ [(name, PathParam r.Context key)] })

/-- The handler function of `TestPathParam`:
`gotParam = routegroup.PathParam(r.Context(), "param")`. -/
def getParam : Handler TestWorld :=
  fun _ r s => { s with gotParam := PathParam r.Context "param" }

/-- Go `httptest.NewRequest(method, target, nil)`. -/
def NewRequest (method target : String) : Request :=
  { Method := method, Path := target, ctx := routegroup.Context.background }

/-- Go `httptest.NewRecorder()`. -/
def NewRecorder : ResponseWriter := { id := 0 }

/-- Serves the requests one after the other through the router. -/
def serveAll {E σ : Type} (rt : Router E σ) (reqs : List (ResponseWriter × Request)) (s : σ) : σ :=
  reqs.foldl (fun s wr => rt.ServeHTTP wr.1 wr.2 s) s

/-- The router of `TestPathParam`: `NewRouter()` with the route
`GET /foo/:param` added under the empty prefix. -/
def pathParamRouter : Router (HttpRouter TestWorld) TestWorld :=
  (NewRouter HttpRouter.api (HttpRouter.New (fun _ _ s => s)) []).AddRoutes
    (testRouteAdder [{ method := "GET", path := "/foo/:param",
                       handler := { name := "h", fn := some getParam } }]) ""

/-- A handler that logs what `PathParam(r.Context(), "param")` returns to it. -/
def observingHandler : Handler TestWorld :=
  fun _ r s => { s with seen := s.seen ++ [("h", PathParam r.Context "param")] }

/-- One route `GET /foo/:param` with one per-route middleware; the middleware
and the handler log the parameter they see. -/
def observedAdder : RouteAdder TestWorld :=
  [{ m := "GET", p := "/foo/:param", h := observingHandler,
     mws := [observeParam "route" "param"] }]

/-- A router with one global middleware and the route of `observedAdder`;
every stage logs the parameter it sees. -/
def observedRouter : Router (HttpRouter TestWorld) TestWorld :=
  (NewRouter HttpRouter.api (HttpRouter.New (fun _ _ s => s))
    [observeParam "global" "param"]).AddRoutes observedAdder ""

/-- The router of `TestRouter` (`pfx = ""`) and of `TestRoutesWithPrefix`
(`pfx = "/prefix"`): `NewRouter()` with the routes `GET /foo` and `GET /bar`. -/
def testRouter (pfx : String) : Router (HttpRouter TestWorld) TestWorld :=
  (NewRouter HttpRouter.api (HttpRouter.New (fun _ _ s => s)) []).AddRoutes
    (testRouteAdder
      [{ method := "GET", path := "/foo", handler := { name := "foo", fn := none } },
       { method := "GET", path := "/bar", handler := { name := "bar", fn := none } }]) pfx

/-- The routes of `TestRouter`, `TestRoutesWithPrefix` and
`TestRouterWithMiddleware`. -/
def fooBar : List testRoute :=
  [{ method := "GET", path := "/foo", handler := { name := "foo", fn := none } },
   { method := "GET", path := "/bar", handler := { name := "bar", fn := none } }]

/-- The router of `TestRouterWithMiddleware`. -/
def middlewareRouter : Router (HttpRouter TestWorld) TestWorld :=
  (NewRouter HttpRouter.api (HttpRouter.New (fun _ _ s => s)) [testMiddleware.newInstance]).AddRoutes
    (testRouteAdder fooBar) "/prefix"


/-- What a forwarding middleware does on entry, before it serves the next
handler. -/
abbrev EntryAct (σ : Type) := ResponseWriter → Request → σ → σ

/-- What a forwarding middleware does on the way out, from the world it was
entered in and the world the next handler left. -/
abbrev ExitAct (σ : Type) := ResponseWriter → Request → σ → σ → σ

/-- A forwarding middleware: it acts on entry, serves the next handler exactly
once with the writer and the request it received, and acts on the way out. -/
def around {σ : Type} (p : EntryAct σ × ExitAct σ) : Middleware σ :=
  fun next w r s => p.2 w r s (next w r (p.1 w r s))

/-- The entry actions of forwarding middlewares, each once, first to last. -/
def enterAll {σ : Type} (ps : List (EntryAct σ × ExitAct σ)) (w : ResponseWriter) (r : Request)
    (s : σ) : σ :=
  ps.foldl (fun s p => p.1 w r s) s

/-- The exit actions of forwarding middlewares entered from `s`, last to
first, after the innermost handler has left the world `t`. -/
def exitAll {σ : Type} :
    List (EntryAct σ × ExitAct σ) → ResponseWriter → Request → σ → σ → σ
  | [], _, _, _, t => t
  | p :: rest, w, r, s, t => p.2 w r s (exitAll rest w r (p.1 w r s) t)

/-- A middleware that answers by itself and never serves the next handler
(say, one that refuses the request). -/
def shortCircuit {σ : Type} : Middleware σ :=
  fun _ _ _ s => s

/-- The router of `TestRouterWithMiddleware` with a refusing global middleware
in front of the counting one. -/
def blockedRouter : Router (HttpRouter TestWorld) TestWorld :=
  (NewRouter HttpRouter.api (HttpRouter.New (fun _ _ s => s))
    [shortCircuit, testMiddleware.newInstance]).AddRoutes (testRouteAdder fooBar) "/prefix"

/-- The route `GET /foo` registered with a refusing per-route middleware. -/
def guardedAdder : RouteAdder TestWorld :=
  [{ m := "GET", p := "/foo",
     h := testHandler.ServeHTTP { name := "foo", fn := none }, mws := [shortCircuit] }]

/-- A router without global middleware holding the route of `guardedAdder`. -/
def guardedRouter : Router (HttpRouter TestWorld) TestWorld :=
  (NewRouter HttpRouter.api (HttpRouter.New (fun _ _ s => s)) []).AddRoutes guardedAdder ""

/-- The route `GET /foo` registered with the counting middleware of the tests
as per-route middleware. -/
def countedAdder : RouteAdder TestWorld :=
  [{ m := "GET", p := "/foo",
     h := testHandler.ServeHTTP { name := "foo", fn := none },
     mws := [testMiddleware.newInstance] }]

/-- A router with the counting middleware as global middleware holding the
route of `countedAdder` under `"/prefix"`. -/
def countedRouter : Router (HttpRouter TestWorld) TestWorld :=
  (NewRouter HttpRouter.api (HttpRouter.New (fun _ _ s => s))
    [testMiddleware.newInstance]).AddRoutes countedAdder "/prefix"

/-! ## Lemmas on maps, contexts and chains -/

theorem GoMap.lookup_filter_ne (m : GoMap) (k k2 : String) (h : k2 ≠ k) :
    List.lookup k2 (m.filter (fun e => e.1 != k)) = List.lookup k2 m := by
  induction m with
  | nil => rfl
  | cons e m ih =>
    obtain ⟨a, b⟩ := e
    by_cases hak : a = k
    · subst hak
      have h1 : (k2 == a) = false := by simpa using h
      simp [List.filter_cons, List.lookup_cons, h1, ih]
    · have h1 : (a != k) = true := by simpa using hak
      simp only [List.filter_cons, h1, if_true, List.lookup_cons, ih]

theorem GoMap.get_set (m : GoMap) (k v k2 : String) :
    GoMap.get (GoMap.set m k v) k2 = if k2 = k then v else GoMap.get m k2 := by
  unfold GoMap.get GoMap.set
  by_cases h : k2 = k
  · subst h
    simp [List.lookup_cons]
  · have h1 : (k2 == k) = false := by simpa using h
    simp only [List.lookup_cons, h1, if_neg h]
    rw [GoMap.lookup_filter_ne m k k2 h]

theorem GoMap.get_make (k : String) : GoMap.get GoMap.make k = "" := rfl

theorem GoMap.get_foldl_set (ps : Params) (m : GoMap) (k : String) :
    GoMap.get (ps.foldl (fun v p => GoMap.set v p.Key p.Value) m) k =
      match ps.reverse.find? (fun p => p.Key == k) with
      | some p => p.Value
      | none => GoMap.get m k := by
  induction ps generalizing m with
  | nil => rfl
  | cons p ps ih =>
    rw [List.foldl_cons, ih, List.reverse_cons, List.find?_append]
    cases hfind : List.find? (fun p => p.Key == k) ps.reverse with
    | some q => rfl
    | none =>
      by_cases hk : p.Key = k
      · simp [List.find?_cons, hk, GoMap.get_set]
      · have hk2 : ¬ k = p.Key := fun h => hk h.symm
        simp [List.find?_cons, hk, hk2, GoMap.get_set]

theorem lastValue_eq (ps : Params) (k : String) :
    GoMap.get (ps.foldl (fun v p => GoMap.set v p.Key p.Value) GoMap.make) k = lastValue ps k := by
  rw [GoMap.get_foldl_set]
  rfl

theorem lastValue_of_mem_nodup (ps : Params) (hnd : (ps.map Param.Key).Nodup) (p : Param)
    (hp : p ∈ ps) : lastValue ps p.Key = p.Value := by
  unfold lastValue
  have hnd2 : (ps.reverse.map Param.Key).Nodup := by
    rw [List.map_reverse]
    exact List.nodup_reverse.mpr hnd
  have hp2 : p ∈ ps.reverse := List.mem_reverse.mpr hp
  generalize ps.reverse = qs at hnd2 hp2
  induction qs with
  | nil => cases hp2
  | cons q qs ih =>
    rw [List.map_cons, List.nodup_cons] at hnd2
    by_cases hq : q.Key = p.Key
    · have hqp : q = p := by
        rcases List.mem_cons.mp hp2 with h | h
        · exact h.symm
        · exact absurd (hq ▸ List.mem_map_of_mem Param.Key h) hnd2.1
      simp [List.find?_cons, hqp]
    · have hmem : p ∈ qs := by
        rcases List.mem_cons.mp hp2 with h | h
        · exact absurd (congrArg Param.Key h).symm hq
        · exact h
      have := ih hnd2.2 hmem
      simpa [List.find?_cons, hq] using this

theorem lastValue_of_not_mem (ps : Params) (k : String) (h : k ∉ ps.map Param.Key) :
    lastValue ps k = "" := by
  unfold lastValue
  have h2 : List.find? (fun p => p.Key == k) ps.reverse = none := by
    rw [List.find?_eq_none]
    intro p hp hk
    apply h
    have hkp : p.Key = k := by simpa using hk
    exact hkp ▸ List.mem_map_of_mem Param.Key (List.mem_reverse.mp hp)
  rw [h2]

theorem Value_WithValue (parent : Context) (key k : CtxKey) (val : CtxVal) :
    (WithValue parent key val).Value k = if k = key then some val else parent.Value k := rfl

theorem appendAll_eq {σ : Type} (mws : List (Middleware σ)) : appendAll mws = mws := by
  unfold appendAll
  have h : ∀ (acc : List (Middleware σ)),
      mws.foldl (fun ctrs mw => ctrs ++ [mw]) acc = acc ++ mws := by
    induction mws with
    | nil => intro acc; simp
    | cons mw mws ih => intro acc; simp [ih]
  simpa using h []

theorem Then_eq_nest {σ : Type} (cs : List (Middleware σ)) (h : Handler σ) :
    (alice.New cs).Then h = nest cs h := by
  unfold Chain.Then alice.New
  simp only [List.foldl_reverse]
  induction cs with
  | nil => rfl
  | cons c cs ih => simp only [List.foldr_cons, nest, ih]

/-- The handle `Router.handler` registers is the injection wrapper around the
handler it was given. -/
theorem handler_impl {E σ : Type} (rt : Router E σ) (method path : String) (h : Handler σ) :
    (rt.handler method path h).impl = rt.api.Handle rt.impl method path (inject h) := rfl

theorem handler_api {E σ : Type} (rt : Router E σ) (method path : String) (h : Handler σ) :
    (rt.handler method path h).api = rt.api ∧ (rt.handler method path h).chain = rt.chain :=
  ⟨rfl, rfl⟩

/-- What `AddRoutes` leaves in the router: the engine's API and the global
chain are untouched, and the engine has received, call after call,
`Handle(m, pfx ++ p, inject (nest mws h))`. -/
theorem AddRoutes_eq {E σ : Type} (rt : Router E σ) (adder : RouteAdder σ) (pfx : String) :
    rt.AddRoutes adder pfx =
      Router.mk rt.api rt.chain (adder.foldl
        (fun e c => rt.api.Handle e c.m (pfx ++ c.p) (inject (nest c.mws c.h))) rt.impl) := by
  unfold Router.AddRoutes RouteAdder.AddRoutes
  induction adder generalizing rt with
  | nil => rfl
  | cons c adder ih =>
    simp only [List.foldl_cons]
    rw [ih]
    simp only [appendAll_eq, Then_eq_nest, handler_impl, handler_api]

/-- On the recording engine, `Router.handler` adds exactly one registration,
whose handle serves the handler once, with the request of `inject`. -/
theorem run_handler {σ : Type} (rt : Router (Recorder σ) σ) (hapi : rt.api = Recorder.api)
    (method path : String) (h : Handler σ) (w : ResponseWriter) (r : Request) (ps : Params)
    (s : σ) :
    Recorder.run (rt.handler method path h).impl w r ps s =
      Recorder.run rt.impl w r ps s ++ [inject h w r ps s] := by
  rw [handler_impl, hapi]
  simp [Recorder.api, Recorder.run]

/-- On the recording engine, `AddRoutes` appends one registration per call of
the adder, in the adder's order. -/
theorem AddRoutes_recorded {σ : Type} (rt : Router (Recorder σ) σ) (hapi : rt.api = Recorder.api)
    (adder : RouteAdder σ) (pfx : String) :
    (rt.AddRoutes adder pfx).impl =
      rt.impl ++ adder.map (fun c =>
        { method := c.m, path := pfx ++ c.p, handle := inject (nest c.mws c.h) }) := by
  rw [AddRoutes_eq, hapi]
  simp only [Recorder.api]
  generalize rt.impl = e
  induction adder generalizing e with
  | nil => simp
  | cons c adder ih => simp [ih]


/-! ## The accessor `PathParam` -/

/-- C1. `PathParam` is total and returns `""` whenever there is nothing to
return: when the context stores nothing under the package key, when what it
stores there is not a `map[string]string`, and when it stores a map without
the key. A map that holds the key with the empty value gives `""` as well, so
the three absences and the empty value cannot be told apart. -/
theorem PathParam_absent_is_empty :
    (∀ (ctx : Context) (key : String),
      ctx.Value CtxKey.pathParamsContextKey = none → PathParam ctx key = "") ∧
    (∀ (ctx : Context) (v key : String),
      ctx.Value CtxKey.pathParamsContextKey = some (CtxVal.other v) → PathParam ctx key = "") ∧
    (∀ (ctx : Context) (m : GoMap) (key : String),
      ctx.Value CtxKey.pathParamsContextKey = some (CtxVal.stringMap m) →
      key ∉ m.map Prod.fst → PathParam ctx key = "") ∧
    (∀ (ctx : Context) (m : GoMap) (key : String),
      ctx.Value CtxKey.pathParamsContextKey = some (CtxVal.stringMap m) →
      m.lookup key = some "" → PathParam ctx key = "") := by
  refine ⟨?_, ?_, ?_, ?_⟩
  · intro ctx key h
    simp [PathParam, h]
  · intro ctx v key h
    simp [PathParam, h]
  · intro ctx m key h hkey
    have hl : m.lookup key = none := by
      rw [List.lookup_eq_none_iff]
      intro e he
      have hne : key ≠ e.1 := fun hk => hkey (hk ▸ List.mem_map_of_mem Prod.fst he)
      simpa using hne
    simp [PathParam, h, GoMap.get, hl]
  · intro ctx m key h hl
    simp [PathParam, h, GoMap.get, hl]

/-- The instances of C1 on concrete contexts: the background context, a
context that only carries a foreign key, a context whose map lacks the key,
and a context whose map holds the key with the empty value. -/
theorem PathParam_absent_is_empty_witness :
    PathParam Context.background "param" = "" ∧
    PathParam (WithValue Context.background (CtxKey.user "trace") (CtxVal.other "x")) "param" = "" ∧
    PathParam (WithValue Context.background CtxKey.pathParamsContextKey
      (CtxVal.stringMap [("id", "7")])) "param" = "" ∧
    PathParam (WithValue Context.background CtxKey.pathParamsContextKey
      (CtxVal.stringMap [("param", "")])) "param" = "" :=
  ⟨PathParam_absent_is_empty.1 _ _ rfl,
   PathParam_absent_is_empty.1 _ _ (by decide),
   PathParam_absent_is_empty.2.2.1 _ [("id", "7")] _ rfl (by decide),
   PathParam_absent_is_empty.2.2.2 _ [("param", "")] _ rfl (by decide)⟩

/-! ## The parameter-injection wrapper -/

/-- C2. The handle `Router.handler` installs serves the wrapped handler with a
request on which `PathParam` returns, for every extracted pair `(k, v)` of a
list with pairwise distinct names, the value `v`. The request `r2` is the one
every wrapped handler receives. -/
theorem PathParam_reads_extracted (w : ResponseWriter) (r : Request) (ps : Params)
    (hnd : (ps.map Param.Key).Nodup) :
    ∃ r2 : Request,
      (∀ (σ : Type) (rt : Router (Recorder σ) σ) (method path : String) (handler : Handler σ)
          (s : σ), rt.api = Recorder.api →
        Recorder.run (rt.handler method path handler).impl w r ps s =
          Recorder.run rt.impl w r ps s ++ [handler w r2 s]) ∧
      ∀ p ∈ ps, PathParam r2.Context p.Key = p.Value := by
  refine ⟨r.WithContext (WithValue r.Context CtxKey.pathParamsContextKey
      (CtxVal.stringMap (ps.foldl (fun v p => GoMap.set v p.Key p.Value) GoMap.make))), ?_, ?_⟩
  · intro σ rt method path handler s hapi
    rw [run_handler rt hapi]
    rfl
  · intro p hp
    have h : ∀ k, PathParam (r.WithContext (WithValue r.Context CtxKey.pathParamsContextKey
        (CtxVal.stringMap (ps.foldl (fun v p => GoMap.set v p.Key p.Value) GoMap.make)))).Context k
        = lastValue ps k := by
      intro k
      simp [PathParam, Request.Context, Request.WithContext, WithValue, Context.Value,
        lastValue_eq]
    rw [h, lastValue_of_mem_nodup ps hnd p hp]

/-- C9. The map is filled by sequential insertion: on the request the wrapped
handler receives, `PathParam` returns for every key the value of the last
extracted pair with that name and `""` when there is none; the map is stored
even when the list is empty, and is then the empty map. -/
theorem PathParam_last_write_wins (w : ResponseWriter) (r : Request) (ps : Params) :
    ∃ r2 : Request,
      (∀ (σ : Type) (rt : Router (Recorder σ) σ) (method path : String) (handler : Handler σ)
          (s : σ), rt.api = Recorder.api →
        Recorder.run (rt.handler method path handler).impl w r ps s =
          Recorder.run rt.impl w r ps s ++ [handler w r2 s]) ∧
      (∀ k : String, PathParam r2.Context k = lastValue ps k) ∧
      (∀ k : String, k ∉ ps.map Param.Key → PathParam r2.Context k = "") ∧
      (∃ m : GoMap, r2.Context.Value CtxKey.pathParamsContextKey = some (CtxVal.stringMap m) ∧
        (ps = [] → m = GoMap.make)) := by
  have h : ∀ k, PathParam (r.WithContext (WithValue r.Context CtxKey.pathParamsContextKey
      (CtxVal.stringMap (ps.foldl (fun v p => GoMap.set v p.Key p.Value) GoMap.make)))).Context k
      = lastValue ps k := by
    intro k
    simp [PathParam, Request.Context, Request.WithContext, WithValue, Context.Value,
      lastValue_eq]
  refine ⟨r.WithContext (WithValue r.Context CtxKey.pathParamsContextKey
      (CtxVal.stringMap (ps.foldl (fun v p => GoMap.set v p.Key p.Value) GoMap.make))),
      ?_, h, ?_, ?_⟩
  · intro σ rt method path handler s hapi
    rw [run_handler rt hapi]
    rfl
  · intro k hk
    rw [h, lastValue_of_not_mem ps k hk]
  · refine ⟨_, rfl, ?_⟩
    intro hps
    subst hps
    rfl

/-- C10. The wrapper only adds one context entry: the wrapped handler is
served exactly once, with the same response writer, from the same world (the
wrapper itself writes nothing), and with a request that has the method and
the path of the incoming one and whose context is the incoming context
extended by one entry under the package key, so that every other key reads
as before and the incoming context is still the parent, unchanged. -/
theorem wrapper_frame (w : ResponseWriter) (r : Request) (ps : Params) :
    ∃ r2 : Request,
      (∀ (σ : Type) (rt : Router (Recorder σ) σ) (method path : String) (handler : Handler σ)
          (s : σ), rt.api = Recorder.api →
        Recorder.run (rt.handler method path handler).impl w r ps s =
          Recorder.run rt.impl w r ps s ++ [handler w r2 s]) ∧
      (∀ k : CtxKey, k ≠ CtxKey.pathParamsContextKey →
        r2.Context.Value k = r.Context.Value k) ∧
      r2.Method = r.Method ∧ r2.Path = r.Path ∧
      (∃ m : GoMap, r2.Context =
        Context.valueCtx r.Context CtxKey.pathParamsContextKey (CtxVal.stringMap m)) := by
  refine ⟨r.WithContext (WithValue r.Context CtxKey.pathParamsContextKey
      (CtxVal.stringMap (ps.foldl (fun v p => GoMap.set v p.Key p.Value) GoMap.make))),
      ?_, ?_, rfl, rfl, ⟨_, rfl⟩⟩
  · intro σ rt method path handler s hapi
    rw [run_handler rt hapi]
    rfl
  · intro k hk
    simp [Request.Context, Request.WithContext, WithValue, Context.Value, hk]


/-- The test `TestPathParam` as an instance of C2: the list `[param = bar]`
has distinct names, and serving `GET /foo/bar` on the route `GET /foo/:param`
leaves `gotParam = "bar"`. -/
theorem PathParam_reads_extracted_witness :
    (∃ r2 : Request,
      (∀ (σ : Type) (rt : Router (Recorder σ) σ) (method path : String) (handler : Handler σ)
          (s : σ), rt.api = Recorder.api →
        Recorder.run (rt.handler method path handler).impl NewRecorder
            (NewRequest "GET" "/foo/bar") [{ Key := "param", Value := "bar" }] s =
          Recorder.run rt.impl NewRecorder (NewRequest "GET" "/foo/bar")
            [{ Key := "param", Value := "bar" }] s ++ [handler NewRecorder r2 s]) ∧
      ∀ p ∈ [({ Key := "param", Value := "bar" } : Param)], PathParam r2.Context p.Key = p.Value) ∧
    pathParamRouter.ServeHTTP NewRecorder (NewRequest "GET" "/foo/bar") TestWorld.init =
      { called := ["h"], calls := 0, gotParam := "bar", seen := [] } :=
  ⟨PathParam_reads_extracted NewRecorder (NewRequest "GET" "/foo/bar")
    [{ Key := "param", Value := "bar" }] (by decide), by decide⟩

/-! ## Registration -/

/-- C3. `AddRoutes` makes one engine registration per call of the adder, in
the adder's order, under the method unchanged and the path `pfx ++ p`: on any
engine the engine state is the fold of `Handle` over the calls, and on the
recording engine the log grows by exactly the list of `(m, pfx ++ p)`; with
the empty prefix the recorded path is `p` itself. -/
theorem AddRoutes_registers_each_call {E σ : Type} (rt : Router E σ) (adder : RouteAdder σ)
    (pfx : String) :
    (rt.AddRoutes adder pfx).impl =
        adder.foldl (fun e c => rt.api.Handle e c.m (pfx ++ c.p) (inject (nest c.mws c.h)))
          rt.impl ∧
    (∀ (e : Recorder σ) (gmws : List (Middleware σ)),
      (((NewRouter Recorder.api e gmws).AddRoutes adder pfx).impl.map
          (fun rte => (rte.method, rte.path)) =
        e.map (fun rte => (rte.method, rte.path)) ++ adder.map (fun c => (c.m, pfx ++ c.p))) ∧
      ((NewRouter Recorder.api e gmws).AddRoutes adder pfx).impl.length =
        e.length + adder.length ∧
      ((NewRouter Recorder.api e gmws).AddRoutes adder "").impl.map
          (fun rte => (rte.method, rte.path)) =
        e.map (fun rte => (rte.method, rte.path)) ++ adder.map (fun c => (c.m, c.p))) := by
  refine ⟨by rw [AddRoutes_eq], ?_⟩
  intro e gmws
  refine ⟨?_, ?_, ?_⟩
  · rw [AddRoutes_recorded _ rfl]
    simp [NewRouter, Function.comp_def]
  · rw [AddRoutes_recorded _ rfl]
    simp [NewRouter]
  · rw [AddRoutes_recorded _ rfl]
    simp [NewRouter, Function.comp_def]

/-- Entering middlewares, composed outermost-first, run their entry actions
once each, first to last, on the request served, and then the handler. -/
theorem nest_entering {σ : Type} (fs : List (ResponseWriter → Request → σ → σ)) (h : Handler σ)
    (w : ResponseWriter) (r : Request) (s : σ) :
    nest (fs.map entering) h w r s = h w r (fs.foldl (fun s f => f w r s) s) := by
  induction fs generalizing s with
  | nil => rfl
  | cons f fs ih =>
    simp only [List.map_cons, nest, List.foldl_cons]
    show nest (fs.map entering) h w r (f w r s) = _
    rw [ih]

/-- C7. The handle `AddRoutes` installs for `apply(m, p, h, mws...)` is
`inject (nest mws h)`: the injection wrapper is the outermost layer of the
route. The per-route chain is therefore served with the request `r2` whose
context already stores the parameter map, `PathParam` on it returns the
captured values, and per-route middlewares that act on entry all act on `r2`
before `h` is served with it. -/
theorem installed_handle_is_inject_of_chain (w : ResponseWriter) (r : Request) (ps : Params) :
    ∃ r2 : Request,
      (∀ (σ : Type) (e : Recorder σ) (gmws : List (Middleware σ)) (adder : RouteAdder σ)
          (pfx : String) (s : σ),
        ((NewRouter Recorder.api e gmws).AddRoutes adder pfx).impl =
            e ++ adder.map (fun c => { method := c.m, path := pfx ++ c.p,
                                       handle := inject (nest c.mws c.h) }) ∧
        Recorder.run ((NewRouter Recorder.api e gmws).AddRoutes adder pfx).impl w r ps s =
            Recorder.run e w r ps s ++ adder.map (fun c => nest c.mws c.h w r2 s)) ∧
      (∀ (σ : Type) (fs : List (ResponseWriter → Request → σ → σ)) (h : Handler σ) (s : σ),
        inject (nest (fs.map entering) h) w r ps s =
          h w r2 (fs.foldl (fun s f => f w r2 s) s)) ∧
      (∃ m : GoMap, r2.Context.Value CtxKey.pathParamsContextKey = some (CtxVal.stringMap m)) ∧
      (∀ k : String, PathParam r2.Context k = lastValue ps k) := by
  refine ⟨r.WithContext (WithValue r.Context CtxKey.pathParamsContextKey
      (CtxVal.stringMap (ps.foldl (fun v p => GoMap.set v p.Key p.Value) GoMap.make))),
      ?_, ?_, ⟨_, rfl⟩, ?_⟩
  · intro σ e gmws adder pfx s
    have h := AddRoutes_recorded (NewRouter Recorder.api e gmws) rfl adder pfx
    refine ⟨h, ?_⟩
    rw [h]
    simp [Recorder.run, NewRouter, inject, Function.comp_def]
  · intro σ fs h s
    show nest (fs.map entering) h w _ s = _
    rw [nest_entering]
  · intro k
    simp [PathParam, Request.Context, Request.WithContext, WithValue, Context.Value,
      lastValue_eq]

/-! ## Middleware -/

theorem Handler_eq_nest {E σ : Type} (api : EngineAPI E σ) (new : E) (mws : List (Middleware σ))
    (adder : RouteAdder σ) (pfx : String) :
    ((NewRouter api new mws).AddRoutes adder pfx).ServeHTTP =
      nest mws (api.ServeHTTP ((NewRouter api new mws).AddRoutes adder pfx).impl) := by
  rw [AddRoutes_eq]
  simp only [Router.ServeHTTP, Router.Handler, NewRouter, appendAll_eq, Then_eq_nest]

theorem nest_append {σ : Type} (a b : List (Middleware σ)) (h : Handler σ) :
    nest (a ++ b) h = nest a (nest b h) := by
  induction a with
  | nil => rfl
  | cons mw a ih =>
    show mw (nest (a ++ b) h) = mw (nest a (nest b h))
    rw [ih]

/-- Forwarding middlewares, composed outermost-first, run their entry actions
once each, first to last, then the handler once, then their exit actions,
last to first. -/
theorem nest_around {σ : Type} (ps : List (EntryAct σ × ExitAct σ)) (h : Handler σ)
    (w : ResponseWriter) (r : Request) (s : σ) :
    nest (ps.map around) h w r s = exitAll ps w r s (h w r (enterAll ps w r s)) := by
  induction ps generalizing s with
  | nil => rfl
  | cons p ps ih =>
    simp only [List.map_cons, nest, exitAll, enterAll, List.foldl_cons]
    show p.2 w r s (nest (ps.map around) h w r (p.1 w r s)) = _
    rw [ih]
    rfl

theorem enterAll_calls (ps : List (EntryAct TestWorld × ExitAct TestWorld))
    (hps : ∀ p ∈ ps, (∀ w r s, (p.1 w r s).calls = s.calls) ∧
      ∀ w r s t, (p.2 w r s t).calls = t.calls)
    (w : ResponseWriter) (r : Request) (s : TestWorld) :
    (enterAll ps w r s).calls = s.calls := by
  unfold enterAll
  induction ps generalizing s with
  | nil => rfl
  | cons p ps ih =>
    rw [List.foldl_cons, ih (fun q hq => hps q (List.mem_cons_of_mem _ hq)),
      (hps p (List.mem_cons_self _ _)).1]

theorem exitAll_calls (ps : List (EntryAct TestWorld × ExitAct TestWorld))
    (hps : ∀ p ∈ ps, (∀ w r s, (p.1 w r s).calls = s.calls) ∧
      ∀ w r s t, (p.2 w r s t).calls = t.calls)
    (w : ResponseWriter) (r : Request) (s t : TestWorld) :
    (exitAll ps w r s t).calls = t.calls := by
  induction ps generalizing s with
  | nil => rfl
  | cons p ps ih =>
    simp only [exitAll]
    rw [(hps p (List.mem_cons_self _ _)).2, ih (fun q hq => hps q (List.mem_cons_of_mem _ hq))]

theorem serveAll_calls {E : Type} (rt : Router E TestWorld)
    (ps : List (EntryAct TestWorld × ExitAct TestWorld)) (rest : List (Middleware TestWorld))
    (hchain : rt.ServeHTTP =
      nest (ps.map around ++ testMiddleware.newInstance :: rest) (rt.api.ServeHTTP rt.impl))
    (hps : ∀ p ∈ ps, (∀ w r s, (p.1 w r s).calls = s.calls) ∧
      ∀ w r s t, (p.2 w r s t).calls = t.calls)
    (hkeep : ∀ w r s, (nest rest (rt.api.ServeHTTP rt.impl) w r s).calls = s.calls)
    (reqs : List (ResponseWriter × Request)) (s : TestWorld) :
    (serveAll rt reqs s).calls = s.calls + reqs.length := by
  have hone : ∀ w r s, (rt.ServeHTTP w r s).calls = s.calls + 1 := by
    intro w r s
    rw [hchain, nest_append, nest_around, exitAll_calls ps hps]
    simp only [nest, testMiddleware.newInstance, entering, hkeep]
    rw [enterAll_calls ps hps]
  unfold serveAll
  induction reqs generalizing s with
  | nil => rfl
  | cons wr reqs ih =>
    rw [List.foldl_cons, ih, hone, List.length_cons]
    omega

/-- C6 as stated fails when a middleware does not serve its next handler: with
the global sequence `[shortCircuit, counting]` the composed handler is still
`shortCircuit (counting (dispatch))`, but serving the two requests of
`TestRouterWithMiddleware` never enters the counting middleware (the counter
stays 0, not 2) and runs no handler. -/
theorem short_circuit_skips_inner_middleware :
    blockedRouter.ServeHTTP =
      nest [shortCircuit, testMiddleware.newInstance]
        (HttpRouter.ServeHTTP blockedRouter.impl) ∧
    serveAll blockedRouter
        [(NewRecorder, NewRequest "GET" "/prefix/foo"),
         (NewRecorder, NewRequest "GET" "/prefix/bar")] TestWorld.init =
      { called := [], calls := 0, gotParam := "", seen := [] } ∧
    (serveAll blockedRouter
        [(NewRecorder, NewRequest "GET" "/prefix/foo"),
         (NewRecorder, NewRequest "GET" "/prefix/bar")] TestWorld.init).calls ≠ 2 := by
  refine ⟨?_, by decide, by decide⟩
  exact Handler_eq_nest HttpRouter.api (HttpRouter.New (fun _ _ s => s))
    [shortCircuit, testMiddleware.newInstance] (testRouteAdder fooBar) "/prefix"

/-- C6, amended. Middleware is composed outermost-first, globally and per
route, whatever the middlewares are: the handler the chain builder returns
for the copied list is `mw1 (mw2 (... (mwn h)))`; the router's handler is the
global middleware nested around the engine's dispatch; every call
`apply(m, p, h, mws...)` of every adder registers the injection wrapper around
its own `mws` nested around its own `h`. When every middleware of a sequence
is forwarding (serves its next handler exactly once, with the writer and the
request it received), serving a request runs the entry actions once each,
first to last, then the handler, then the exit actions. A counting global
middleware preceded only by forwarding middlewares has counted `k` more after
`k` requests, as long as nothing else touches the counter. -/
theorem middleware_outermost_first :
    (∀ (σ : Type) (mws : List (Middleware σ)) (h : Handler σ),
      (alice.New (appendAll mws)).Then h = nest mws h) ∧
    (∀ (E σ : Type) (api : EngineAPI E σ) (new : E) (mws : List (Middleware σ)),
      (NewRouter api new mws).ServeHTTP = nest mws (api.ServeHTTP new)) ∧
    (∀ (E σ : Type) (api : EngineAPI E σ) (new : E) (mws : List (Middleware σ))
        (adder : RouteAdder σ) (pfx : String),
      ((NewRouter api new mws).AddRoutes adder pfx).ServeHTTP =
        nest mws (api.ServeHTTP ((NewRouter api new mws).AddRoutes adder pfx).impl)) ∧
    (∀ (E σ : Type) (rt : Router E σ) (adder : RouteAdder σ) (pfx : String),
      (rt.AddRoutes adder pfx).impl =
        adder.foldl (fun e c => rt.api.Handle e c.m (pfx ++ c.p) (inject (nest c.mws c.h)))
          rt.impl) ∧
    (∀ (σ : Type) (e : Recorder σ) (gmws : List (Middleware σ)) (adder : RouteAdder σ)
        (pfx : String),
      ((NewRouter Recorder.api e gmws).AddRoutes adder pfx).impl =
        e ++ adder.map (fun c => { method := c.m, path := pfx ++ c.p,
                                   handle := inject (nest c.mws c.h) })) ∧
    (∀ (σ : Type) (ps : List (EntryAct σ × ExitAct σ)) (h : Handler σ)
        (w : ResponseWriter) (r : Request) (s : σ),
      (alice.New (appendAll (ps.map around))).Then h w r s =
        exitAll ps w r s (h w r (enterAll ps w r s))) ∧
    (∀ (E : Type) (api : EngineAPI E TestWorld) (new : E)
        (ps : List (EntryAct TestWorld × ExitAct TestWorld)) (rest : List (Middleware TestWorld))
        (adder : RouteAdder TestWorld) (pfx : String) (reqs : List (ResponseWriter × Request))
        (s : TestWorld),
      (∀ p ∈ ps, (∀ w r s, (p.1 w r s).calls = s.calls) ∧
        ∀ w r s t, (p.2 w r s t).calls = t.calls) →
      (∀ w r s, (nest rest (api.ServeHTTP
          ((NewRouter api new (ps.map around ++ testMiddleware.newInstance :: rest)).AddRoutes
            adder pfx).impl) w r s).calls = s.calls) →
      (serveAll
          ((NewRouter api new (ps.map around ++ testMiddleware.newInstance :: rest)).AddRoutes
            adder pfx) reqs s).calls = s.calls + reqs.length) := by
  refine ⟨?_, ?_, ?_, ?_, ?_, ?_, ?_⟩
  · intro σ mws h
    rw [appendAll_eq, Then_eq_nest]
  · intro E σ api new mws
    simp only [Router.ServeHTTP, Router.Handler, NewRouter, appendAll_eq, Then_eq_nest]
  · intro E σ api new mws adder pfx
    exact Handler_eq_nest api new mws adder pfx
  · intro E σ rt adder pfx
    rw [AddRoutes_eq]
  · intro σ e gmws adder pfx
    exact AddRoutes_recorded (NewRouter Recorder.api e gmws) rfl adder pfx
  · intro σ ps h w r s
    rw [appendAll_eq, Then_eq_nest, nest_around]
  · intro E api new ps rest adder pfx reqs s hps hkeep
    have hapi :
        ((NewRouter api new (ps.map around ++ testMiddleware.newInstance :: rest)).AddRoutes
          adder pfx).api = api := by
      rw [AddRoutes_eq]
      rfl
    apply serveAll_calls _ ps rest
    · rw [hapi]
      exact Handler_eq_nest api new _ adder pfx
    · exact hps
    · rw [hapi]
      exact hkeep

/-! ## Lemmas on the path-matching engine -/

theorem AddRoutes_httprouter {σ : Type} (e : HttpRouter σ) (gmws : List (Middleware σ))
    (adder : RouteAdder σ) (pfx : String) :
    ((NewRouter HttpRouter.api e gmws).AddRoutes adder pfx).impl =
      e.handleAll (registrations adder pfx) := by
  rw [AddRoutes_eq]
  simp only [HttpRouter.handleAll, registrations, List.foldl_map, NewRouter, HttpRouter.api]

theorem Handle_of_panicked {σ : Type} (e : HttpRouter σ) (h : e.panicked = true)
    (m p : String) (hd : Handle σ) : e.Handle m p hd = e := by
  simp [HttpRouter.Handle, h]

theorem handleAll_of_panicked {σ : Type} (rs : List (Route σ)) (e : HttpRouter σ)
    (h : e.panicked = true) : e.handleAll rs = e := by
  induction rs with
  | nil => rfl
  | cons x xs ih =>
    simp only [HttpRouter.handleAll, List.foldl_cons]
    rw [Handle_of_panicked e h]
    exact ih

theorem Handle_ok {σ : Type} (e : HttpRouter σ) (m p : String) (hd : Handle σ)
    (h : (e.Handle m p hd).panicked = false) :
    e.panicked = false ∧ p.data.head? = some '/' ∧
      (e.Handle m p hd).routes = e.routes ++ [{ method := m, path := p, handle := hd }] ∧
      (e.Handle m p hd).NotFound = e.NotFound := by
  unfold HttpRouter.Handle at h ⊢
  by_cases h1 : e.panicked = true
  · simp [h1] at h
  · by_cases h2 : p.data.head? ≠ some '/'
    · simp [h1, h2] at h
    · by_cases h3 : e.routes.any (fun rte => decide (rte.method = m ∧ rte.path = p)) = true
      · rw [if_neg h1, if_neg h2, if_pos h3] at h
        simp at h
      · rw [if_neg h1, if_neg h2, if_neg h3]
        refine ⟨by simpa using h1, by simpa using h2, rfl, rfl⟩

theorem Handle_routes_sub {σ : Type} (e : HttpRouter σ) (m p : String) (hd : Handle σ)
    (rte : Route σ) (h : rte ∈ (e.Handle m p hd).routes) :
    rte ∈ e.routes ∨ rte = { method := m, path := p, handle := hd } := by
  unfold HttpRouter.Handle at h
  split_ifs at h
  · exact Or.inl h
  · exact Or.inl h
  · exact Or.inl h
  · simpa using h

theorem handleAll_routes_sub {σ : Type} (rs : List (Route σ)) (e : HttpRouter σ)
    (rte : Route σ) (h : rte ∈ (e.handleAll rs).routes) : rte ∈ e.routes ∨ rte ∈ rs := by
  induction rs generalizing e with
  | nil => exact Or.inl h
  | cons x xs ih =>
    simp only [HttpRouter.handleAll, List.foldl_cons] at h
    rcases ih _ h with h1 | h1
    · rcases Handle_routes_sub e _ _ _ rte h1 with h2 | h2
      · exact Or.inl h2
      · exact Or.inr (h2 ▸ List.mem_cons_self _ _)
    · exact Or.inr (List.mem_cons_of_mem _ h1)

theorem handleAll_ok {σ : Type} (rs : List (Route σ)) (e : HttpRouter σ)
    (h : (e.handleAll rs).panicked = false) :
    (e.handleAll rs).routes = e.routes ++ rs ∧ (e.handleAll rs).NotFound = e.NotFound ∧
      ∀ rte ∈ rs, rte.path.data.head? = some '/' := by
  induction rs generalizing e with
  | nil => simp [HttpRouter.handleAll]
  | cons x xs ih =>
    have hstep : e.handleAll (x :: xs) = (e.Handle x.method x.path x.handle).handleAll xs := rfl
    rw [hstep] at h ⊢
    have hx : (e.Handle x.method x.path x.handle).panicked = false := by
      by_contra hp
      have hp2 : (e.Handle x.method x.path x.handle).panicked = true := by simpa using hp
      rw [handleAll_of_panicked xs _ hp2] at h
      rw [h] at hp2
      cases hp2
    obtain ⟨_, hhead, hroutes, hnf⟩ := Handle_ok e _ _ _ hx
    obtain ⟨ih1, ih2, ih3⟩ := ih _ h
    refine ⟨?_, ?_, ?_⟩
    · rw [ih1, hroutes]
      simp
    · rw [ih2, hnf]
    · intro rte hrte
      rcases List.mem_cons.mp hrte with h1 | h1
      · rw [h1]
        exact hhead
      · exact ih3 rte h1

theorem handleAll_succeeds {σ : Type} (rs : List (Route σ)) (e : HttpRouter σ)
    (he : e.panicked = false) (hslash : ∀ rte ∈ rs, rte.path.data.head? = some '/')
    (hnd : ((e.routes ++ rs).map (fun rte => (rte.method, rte.path))).Nodup) :
    (e.handleAll rs).panicked = false := by
  induction rs generalizing e with
  | nil => exact he
  | cons x xs ih =>
    have hstep : e.handleAll (x :: xs) = (e.Handle x.method x.path x.handle).handleAll xs := rfl
    rw [hstep]
    have hhead : x.path.data.head? = some '/' := hslash x (List.mem_cons_self _ _)
    have hnodup : e.routes.any (fun rte => decide (rte.method = x.method ∧ rte.path = x.path))
        = false := by
      rw [List.any_eq_false]
      intro rte hrte hk
      have hk2 : rte.method = x.method ∧ rte.path = x.path := by simpa using hk
      rw [List.map_append, List.map_cons] at hnd
      have hdis := (List.nodup_append.mp hnd).2.2
      apply hdis (List.mem_map_of_mem (fun rte => (rte.method, rte.path)) hrte)
        (a := (rte.method, rte.path))
      rw [hk2.1, hk2.2]
      exact List.mem_cons_self _ _
    have hH : e.Handle x.method x.path x.handle =
        { e with routes := e.routes ++ [x] } := by
      unfold HttpRouter.Handle
      rw [if_neg (by rw [he]; exact Bool.false_ne_true), if_neg (by rw [hhead]; simp),
        if_neg (by rw [hnodup]; exact Bool.false_ne_true)]
    apply ih
    · rw [hH]
      exact he
    · intro rte hrte
      exact hslash rte (List.mem_cons_of_mem _ hrte)
    · rw [hH]
      simpa using hnd


/-! ## Lemmas on path matching -/

theorem segments_ne_nil (l : List Char) : segments l ≠ [] := by
  cases l with
  | nil => simp [segments]
  | cons c cs =>
    unfold segments
    split_ifs
    · simp
    · split <;> simp

theorem unsegments_segments (l : List Char) : unsegments (segments l) = l := by
  induction l with
  | nil => rfl
  | cons c cs ih =>
    unfold segments
    by_cases hc : c = '/'
    · rw [if_pos hc]
      cases hs : segments cs with
      | nil => exact absurd hs (segments_ne_nil cs)
      | cons t ts =>
        rw [hs] at ih
        simp only [unsegments, List.nil_append, ih, hc]
    · rw [if_neg hc]
      cases hs : segments cs with
      | nil => exact absurd hs (segments_ne_nil cs)
      | cons t ts =>
        rw [hs] at ih
        cases ts with
        | nil =>
          simp only [unsegments] at ih ⊢
          rw [ih]
        | cons u us =>
          simp only [unsegments, List.cons_append] at ih ⊢
          rw [ih]

theorem segments_injective (a b : List Char) (h : segments a = segments b) : a = b := by
  rw [← unsegments_segments a, ← unsegments_segments b, h]

theorem mem_of_mem_segments (l : List Char) (seg : List Char) (hseg : seg ∈ segments l)
    (c : Char) (hc : c ∈ seg) : c ∈ l := by
  induction l generalizing seg with
  | nil =>
    simp only [segments, List.mem_singleton] at hseg
    subst hseg
    cases hc
  | cons d ds ih =>
    unfold segments at hseg
    by_cases hd : d = '/'
    · rw [if_pos hd] at hseg
      rcases List.mem_cons.mp hseg with h | h
      · subst h
        cases hc
      · exact List.mem_cons_of_mem _ (ih seg h hc)
    · rw [if_neg hd] at hseg
      cases hs : segments ds with
      | nil => exact absurd hs (segments_ne_nil ds)
      | cons t ts =>
        rw [hs] at hseg ih
        rcases List.mem_cons.mp hseg with h | h
        · subst h
          rcases List.mem_cons.mp hc with h2 | h2
          · exact h2 ▸ List.mem_cons_self _ _
          · exact List.mem_cons_of_mem _ (ih t (List.mem_cons_self _ _) h2)
        · exact List.mem_cons_of_mem _ (ih seg (List.mem_cons_of_mem _ h) hc)

theorem matchSegments_literal (pats segs : List (List Char))
    (hlit : ∀ seg ∈ pats, ':' ∉ seg) :
    matchSegments pats segs = if pats = segs then some [] else none := by
  induction pats generalizing segs with
  | nil =>
    cases segs with
    | nil => simp [matchSegments]
    | cons s ss => simp [matchSegments]
  | cons pat pats ih =>
    cases segs with
    | nil => simp [matchSegments]
    | cons s ss =>
      have ih2 := ih ss (fun seg hseg => hlit seg (List.mem_cons_of_mem _ hseg))
      cases pat with
      | nil =>
        simp only [matchSegments, ih2]
        by_cases hs : s = []
        · subst hs
          simp
        · have hs2 : ¬ ([] : List Char) = s := fun h => hs h.symm
          simp [hs, hs2]
      | cons c name =>
        have hc : c ≠ ':' := by
          intro hc
          exact hlit (c :: name) (List.mem_cons_self _ _) (hc ▸ List.mem_cons_self _ _)
        simp only [matchSegments, if_neg hc, ih2]
        by_cases hs : c :: name = s
        · subst hs
          simp
        · simp [hs]

theorem matchPath_literal (pattern path : String) (hlit : isLiteral pattern = true) :
    matchPath pattern path = if pattern = path then some [] else none := by
  unfold matchPath
  rw [matchSegments_literal]
  · by_cases h : pattern = path
    · subst h
      simp
    · have h2 : segments pattern.data ≠ segments path.data := by
        intro hs
        exact h (String.ext (segments_injective _ _ hs))
      simp [h, h2]
  · intro seg hseg hc
    have hmem := mem_of_mem_segments pattern.data seg hseg ':' hc
    unfold isLiteral at hlit
    rw [List.all_eq_true] at hlit
    have := hlit ':' hmem
    simp at this

theorem matchSegments_self (l : List (List Char)) : (matchSegments l l).isSome = true := by
  induction l with
  | nil => rfl
  | cons seg rest ih =>
    cases seg with
    | nil => simpa [matchSegments] using ih
    | cons c name =>
      by_cases hc : c = ':'
      · simp only [matchSegments, if_pos hc]
        cases hm : matchSegments rest rest with
        | none => rw [hm] at ih; cases ih
        | some ps => simp
      · simpa [matchSegments, hc] using ih

theorem matchSegments_length (a b : List (List Char)) (ps : Params)
    (h : matchSegments a b = some ps) : a.length = b.length := by
  induction a generalizing b ps with
  | nil =>
    cases b with
    | nil => rfl
    | cons s ss => simp [matchSegments] at h
  | cons pat pats ih =>
    cases b with
    | nil => simp [matchSegments] at h
    | cons s ss =>
      cases pat with
      | nil =>
        simp only [matchSegments] at h
        split_ifs at h
        simp [ih ss ps h]
      | cons c name =>
        simp only [matchSegments] at h
        split_ifs at h
        · cases hm : matchSegments pats ss with
          | none => rw [hm] at h; cases h
          | some qs => simp [ih ss qs hm]
        · simp [ih ss ps h]

theorem length_segments (l : List Char) : (segments l).length = l.count '/' + 1 := by
  induction l with
  | nil => rfl
  | cons c cs ih =>
    unfold segments
    by_cases hc : c = '/'
    · rw [if_pos hc]
      subst hc
      simp [ih]
    · rw [if_neg hc]
      cases hs : segments cs with
      | nil => exact absurd hs (segments_ne_nil cs)
      | cons t ts =>
        rw [hs] at ih
        have hc2 : ¬ (c == '/') = true := by simpa using hc
        simp only [List.length_cons] at ih ⊢
        rw [List.count_cons, if_neg hc2]
        simpa using ih

theorem matchPath_self (pattern : String) : (matchPath pattern pattern).isSome = true :=
  matchSegments_self _

theorem matchPath_without_pfx (pfx p : String) (hne : pfx ≠ "")
    (hslash : (pfx ++ p).data.head? = some '/') : matchPath (pfx ++ p) p = none := by
  cases hm : matchPath (pfx ++ p) p with
  | none => rfl
  | some ps =>
    exfalso
    have hlen := matchSegments_length _ _ ps hm
    rw [length_segments, length_segments, String.data_append, List.count_append] at hlen
    have hpfx : 0 < pfx.data.count '/' := by
      cases hd : pfx.data with
      | nil => exact absurd (String.ext (by rw [hd])) hne
      | cons c cs =>
        rw [String.data_append, hd] at hslash
        simp only [List.cons_append, List.head?_cons, Option.some.injEq] at hslash
        subst hslash
        simp
    omega


/-! ## Dispatch -/

theorem append_left_cancel (pfx a b : String) (h : pfx ++ a = pfx ++ b) : a = b := by
  apply String.ext
  have h2 := congrArg String.data h
  rw [String.data_append, String.data_append] at h2
  exact List.append_cancel_left h2

theorem lookup_literal {σ : Type} (rs : List (Route σ))
    (hlit : ∀ rte ∈ rs, isLiteral rte.path = true)
    (hnd : (rs.map (fun rte => (rte.method, rte.path))).Nodup)
    (rte : Route σ) (hrte : rte ∈ rs) (r : Request)
    (hm : r.Method = rte.method) (hp : r.Path = rte.path) :
    rs.findSome? (fun x => (x.matchRequest r).map (fun ps => (x.handle, ps))) =
      some (rte.handle, []) := by
  induction rs with
  | nil => cases hrte
  | cons x xs ih =>
    rw [List.map_cons, List.nodup_cons] at hnd
    rw [List.findSome?_cons]
    have hx : x.matchRequest r =
        if x.method = rte.method ∧ x.path = rte.path then some [] else none := by
      unfold Route.matchRequest
      rw [matchPath_literal _ _ (hlit x (List.mem_cons_self _ _)), hm, hp]
      by_cases h1 : x.method = rte.method
      · by_cases h2 : x.path = rte.path
        · simp [h1, h2]
        · simp [h1, h2]
      · simp [h1]
    by_cases hk : x.method = rte.method ∧ x.path = rte.path
    · have hxe : rte = x := by
        rcases List.mem_cons.mp hrte with h | h
        · exact h
        · exfalso
          apply hnd.1
          have := List.mem_map_of_mem (fun rte => (rte.method, rte.path)) h
          simpa [hk.1, hk.2] using this
      rw [hx, if_pos hk, hxe]
      rfl
    · have hmem : rte ∈ xs := by
        rcases List.mem_cons.mp hrte with h | h
        · exact absurd ⟨by rw [h], by rw [h]⟩ hk
        · exact h
      rw [hx, if_neg hk]
      exact ih (fun y hy => hlit y (List.mem_cons_of_mem _ hy)) hnd.2 hmem

/-- C4 as stated fails when a middleware does not serve its next handler: the
routes `GET /foo` and `GET /bar` are registered (distinct literal paths) under
`"/prefix"` on a router whose first global middleware refuses every request,
and serving `GET /prefix/foo` through the router runs the handler zero times;
likewise for the route `GET /foo` registered with a refusing per-route
middleware on a router without global middleware. -/
theorem short_circuit_skips_handler :
    blockedRouter.impl.panicked = false ∧
    (blockedRouter.ServeHTTP NewRecorder (NewRequest "GET" "/prefix/foo")
      TestWorld.init).called = [] ∧
    guardedRouter.impl.panicked = false ∧
    (guardedRouter.ServeHTTP NewRecorder (NewRequest "GET" "/foo") TestWorld.init).called = [] := by
  refine ⟨by decide, by decide, by decide, by decide⟩

/-- C4, amended. Routes registered through `AddRoutes` under `pfx`, with or
without per-route middleware, whose paths `pfx ++ p` the engine accepts (they
begin with `/`), are literal and are pairwise distinct per method: the
registration completes; the router's handler is the global middleware around
the engine's dispatch; and the dispatch of a request with method `m` and path
`pfx ++ p` is exactly one run of that route's composed handler (its own
per-route middleware around its own `h`, on the request that carries the empty
parameter map) and nothing else, so no other route's handler runs. When the
global middlewares and the route's middlewares are forwarding (each serves
its next handler exactly once, with the writer and the request it received;
none at all, as in the tests, included), serving the request through the
router runs `h` exactly once, between their entry and their exit actions. -/
theorem registered_route_served_once {σ : Type} (notFound : Handler σ)
    (gmws : List (Middleware σ)) (adder : RouteAdder σ) (pfx : String)
    (hslash : ∀ c ∈ adder, (pfx ++ c.p).data.head? = some '/')
    (hlit : ∀ c ∈ adder, isLiteral (pfx ++ c.p) = true)
    (hnd : (adder.map (fun c => (c.m, c.p))).Nodup) :
    ((newHttpRouter notFound gmws).AddRoutes adder pfx).impl.panicked = false ∧
    ((newHttpRouter notFound gmws).AddRoutes adder pfx).ServeHTTP =
      nest gmws (HttpRouter.ServeHTTP ((newHttpRouter notFound gmws).AddRoutes adder pfx).impl) ∧
    ∀ c ∈ adder, ∀ (w : ResponseWriter) (r : Request) (s : σ),
      r.Method = c.m → r.Path = pfx ++ c.p →
      HttpRouter.ServeHTTP ((newHttpRouter notFound gmws).AddRoutes adder pfx).impl w r s =
          nest c.mws c.h w (r.WithContext (WithValue r.Context CtxKey.pathParamsContextKey
            (CtxVal.stringMap GoMap.make))) s ∧
      (∀ gs fs : List (EntryAct σ × ExitAct σ), gmws = gs.map around → c.mws = fs.map around →
        ((newHttpRouter notFound gmws).AddRoutes adder pfx).ServeHTTP w r s =
          exitAll gs w r s
            (exitAll fs w
              (r.WithContext (WithValue r.Context CtxKey.pathParamsContextKey
                (CtxVal.stringMap GoMap.make)))
              (enterAll gs w r s)
              (c.h w
                (r.WithContext (WithValue r.Context CtxKey.pathParamsContextKey
                  (CtxVal.stringMap GoMap.make)))
                (enterAll fs w
                  (r.WithContext (WithValue r.Context CtxKey.pathParamsContextKey
                    (CtxVal.stringMap GoMap.make)))
                  (enterAll gs w r s))))) := by
  have himpl : ((newHttpRouter notFound gmws).AddRoutes adder pfx).impl =
      (HttpRouter.New notFound).handleAll (registrations adder pfx) :=
    AddRoutes_httprouter _ gmws adder pfx
  have hkeys : (registrations adder pfx).map (fun rte => (rte.method, rte.path)) =
      (adder.map (fun c => (c.m, c.p))).map (fun k => (k.1, pfx ++ k.2)) := by
    simp [registrations, Function.comp_def]
  have hnd2 : ((registrations adder pfx).map (fun rte => (rte.method, rte.path))).Nodup := by
    rw [hkeys]
    apply List.Nodup.map _ hnd
    intro a b hab
    simp only [Prod.mk.injEq] at hab
    exact Prod.ext hab.1 (append_left_cancel pfx _ _ hab.2)
  have hok : ((HttpRouter.New notFound).handleAll (registrations adder pfx)).panicked = false := by
    apply handleAll_succeeds
    · rfl
    · intro rte hrte
      simp only [registrations, List.mem_map] at hrte
      obtain ⟨c, hc, rfl⟩ := hrte
      exact hslash c hc
    · simpa [HttpRouter.New] using hnd2
  have hroutes := (handleAll_ok _ _ hok).1
  have hchain : ((newHttpRouter notFound gmws).AddRoutes adder pfx).ServeHTTP =
      nest gmws (HttpRouter.ServeHTTP
        ((newHttpRouter notFound gmws).AddRoutes adder pfx).impl) :=
    Handler_eq_nest HttpRouter.api (HttpRouter.New notFound) gmws adder pfx
  have hdispatch : ∀ c ∈ adder, ∀ (w : ResponseWriter) (r : Request) (s : σ),
      r.Method = c.m → r.Path = pfx ++ c.p →
      HttpRouter.ServeHTTP ((newHttpRouter notFound gmws).AddRoutes adder pfx).impl w r s =
          nest c.mws c.h w (r.WithContext (WithValue r.Context CtxKey.pathParamsContextKey
            (CtxVal.stringMap GoMap.make))) s := by
    intro c hc w r s hm hp
    have hmem : ({ method := c.m, path := pfx ++ c.p, handle := inject (nest c.mws c.h) } :
        Route σ) ∈ registrations adder pfx := by
      simp only [registrations, List.mem_map]
      exact ⟨c, hc, rfl⟩
    have hlook := lookup_literal (registrations adder pfx)
      (by
        intro rte hrte
        simp only [registrations, List.mem_map] at hrte
        obtain ⟨c2, hc2, rfl⟩ := hrte
        exact hlit c2 hc2)
      hnd2 _ hmem r hm hp
    rw [himpl]
    unfold HttpRouter.ServeHTTP HttpRouter.lookup
    rw [hroutes]
    simp only [HttpRouter.New, List.nil_append]
    rw [hlook]
    rfl
  refine ⟨by rw [himpl]; exact hok, hchain, ?_⟩
  intro c hc w r s hm hp
  refine ⟨hdispatch c hc w r s hm hp, ?_⟩
  intro gs fs hg hf
  rw [hchain]
  have hn : nest gmws (HttpRouter.ServeHTTP
      ((newHttpRouter notFound gmws).AddRoutes adder pfx).impl) w r s =
      exitAll gs w r s
        (HttpRouter.ServeHTTP ((newHttpRouter notFound gmws).AddRoutes adder pfx).impl w r
          (enterAll gs w r s)) := by
    rw [hg, nest_around]
  rw [hn, hdispatch c hc w r _ hm hp, hf, nest_around]

/-- The tests `TestRouter` and `TestRoutesWithPrefix` as instances of the
amended C4: the routes `GET /foo` and `GET /bar` are registered without a
panic under `""` and under `"/prefix"` on a router without middleware, and
the request for a route runs that route's handler once and no other. A third
instance has the counting middleware both globally and on the route: the
handler runs once and the middleware has counted twice. -/
theorem registered_route_served_once_witness :
    (testRouter "").impl.panicked = false ∧ (testRouter "/prefix").impl.panicked = false ∧
    (testRouter "").ServeHTTP NewRecorder (NewRequest "GET" "/foo") TestWorld.init =
      { called := ["foo"], calls := 0, gotParam := "", seen := [] } ∧
    (testRouter "/prefix").ServeHTTP NewRecorder (NewRequest "GET" "/prefix/bar") TestWorld.init =
      { called := ["bar"], calls := 0, gotParam := "", seen := [] } ∧
    countedRouter.ServeHTTP NewRecorder (NewRequest "GET" "/prefix/foo") TestWorld.init =
      { called := ["foo"], calls := 2, gotParam := "", seen := [] } := by
  have h3 := registered_route_served_once (fun _ _ s => s) [testMiddleware.newInstance]
    countedAdder "/prefix"
    (by
      intro c hc
      simp only [countedAdder, List.mem_singleton] at hc
      subst hc
      rfl)
    (by
      intro c hc
      simp only [countedAdder, List.mem_singleton] at hc
      subst hc
      rfl)
    (by decide)
  have h1 := registered_route_served_once (fun _ _ s => s) [] (testRouteAdder fooBar) ""
    (by
      intro c hc
      simp only [testRouteAdder, fooBar, List.map_cons, List.map_nil, List.mem_cons,
        List.mem_singleton, List.not_mem_nil, or_false] at hc
      rcases hc with rfl | rfl <;> rfl)
    (by
      intro c hc
      simp only [testRouteAdder, fooBar, List.map_cons, List.map_nil, List.mem_cons,
        List.mem_singleton, List.not_mem_nil, or_false] at hc
      rcases hc with rfl | rfl <;> rfl)
    (by decide)
  have h2 := registered_route_served_once (fun _ _ s => s) [] (testRouteAdder fooBar) "/prefix"
    (by
      intro c hc
      simp only [testRouteAdder, fooBar, List.map_cons, List.map_nil, List.mem_cons,
        List.mem_singleton, List.not_mem_nil, or_false] at hc
      rcases hc with rfl | rfl <;> rfl)
    (by
      intro c hc
      simp only [testRouteAdder, fooBar, List.map_cons, List.map_nil, List.mem_cons,
        List.mem_singleton, List.not_mem_nil, or_false] at hc
      rcases hc with rfl | rfl <;> rfl)
    (by decide)
  refine ⟨h1.1, h2.1, ?_, ?_, ?_⟩
  · exact ((h1.2.2 _ (List.mem_cons_self _ _) NewRecorder (NewRequest "GET" "/foo")
      TestWorld.init rfl rfl).2 [] [] rfl rfl).trans rfl
  · exact ((h2.2.2 _ (List.mem_cons_of_mem _ (List.mem_cons_self _ _)) NewRecorder
      (NewRequest "GET" "/prefix/bar") TestWorld.init rfl rfl).2 [] [] rfl rfl).trans rfl
  · exact ((h3.2.2 _ (List.mem_cons_self _ _) NewRecorder (NewRequest "GET" "/prefix/foo")
      TestWorld.init rfl rfl).2
      [(fun _ _ s => { s with calls := s.calls + 1 }, fun _ _ _ t => t)]
      [(fun _ _ s => { s with calls := s.calls + 1 }, fun _ _ _ t => t)] rfl rfl).trans rfl

/-- C5 as stated fails for the empty prefix: the route `GET /foo` registered
under `""` has the pattern `"" ++ "/foo"`, which matches the request path
`/foo`, the path "without the prefix"; the request runs the route's handler. -/
theorem empty_prefix_matches_bare_path :
    (testRouter "").impl.panicked = false ∧
    (∃ c ∈ testRouteAdder fooBar, c.m = "GET" ∧ c.p = "/foo" ∧
      ¬ (matchPath ("" ++ c.p) c.p = none)) ∧
    (testRouter "").ServeHTTP NewRecorder (NewRequest "GET" "/foo") TestWorld.init =
      { called := ["foo"], calls := 0, gotParam := "", seen := [] } := by
  refine ⟨by decide, ⟨_, List.mem_cons_self _ _, rfl, rfl, by decide⟩, by decide⟩

/-- C5, amended. For every non-empty prefix and every route registered by
`AddRoutes` (the registration did not panic): the engine holds the route
under the method `m` and the pattern `pfx ++ p`; a request with method `m` and
path `pfx ++ p` matches the route, and a request with method `m` and path `p`
does not. -/
theorem prefixed_route_matches {σ : Type} (notFound : Handler σ) (gmws : List (Middleware σ))
    (adder : RouteAdder σ) (pfx : String) (hne : pfx ≠ "")
    (hok : ((newHttpRouter notFound gmws).AddRoutes adder pfx).impl.panicked = false) :
    ∀ c ∈ adder, ∃ rte ∈ ((newHttpRouter notFound gmws).AddRoutes adder pfx).impl.routes,
      rte.method = c.m ∧ rte.path = pfx ++ c.p ∧
      ∀ ctx : Context,
        (rte.matchRequest { Method := c.m, Path := pfx ++ c.p, ctx := ctx }).isSome = true ∧
        rte.matchRequest { Method := c.m, Path := c.p, ctx := ctx } = none := by
  have himpl : ((newHttpRouter notFound gmws).AddRoutes adder pfx).impl =
      (HttpRouter.New notFound).handleAll (registrations adder pfx) :=
    AddRoutes_httprouter _ gmws adder pfx
  rw [himpl] at hok ⊢
  obtain ⟨hroutes, _, hslash⟩ := handleAll_ok _ _ hok
  intro c hc
  have hmem : ({ method := c.m, path := pfx ++ c.p, handle := inject (nest c.mws c.h) } :
      Route σ) ∈ registrations adder pfx := by
    simp only [registrations, List.mem_map]
    exact ⟨c, hc, rfl⟩
  refine ⟨{ method := c.m, path := pfx ++ c.p, handle := inject (nest c.mws c.h) },
    ?_, rfl, rfl, ?_⟩
  · rw [hroutes]
    exact List.mem_append_right _ hmem
  · intro ctx
    refine ⟨?_, ?_⟩
    · simp only [Route.matchRequest, if_true]
      exact matchPath_self _
    · simp only [Route.matchRequest, if_true]
      exact matchPath_without_pfx pfx c.p hne (hslash _ hmem)

/-- The test `TestRoutesWithPrefix` as an instance of the amended C5: under
`"/prefix"` the routes are registered, `/prefix/foo` matches and `/foo` does
not. -/
theorem prefixed_route_matches_witness :
    "/prefix" ≠ "" ∧ (testRouter "/prefix").impl.panicked = false ∧
    ∀ c ∈ testRouteAdder fooBar, ∃ rte ∈ (testRouter "/prefix").impl.routes,
      rte.method = c.m ∧ rte.path = "/prefix" ++ c.p ∧
      ∀ ctx : Context,
        (rte.matchRequest { Method := c.m, Path := "/prefix" ++ c.p, ctx := ctx }).isSome = true ∧
        rte.matchRequest { Method := c.m, Path := c.p, ctx := ctx } = none :=
  ⟨by decide, by decide,
   prefixed_route_matches (fun _ _ s => s) [] (testRouteAdder fooBar) "/prefix" (by decide)
     (by decide)⟩


/-! ## The order of the stages -/

/-- C8 as stated fails: on the route `GET /foo/:param` with one per-route
middleware, the request `GET /foo/bar` reaches the per-route middleware with
the parameter already readable (`"bar"`), while the global middleware sees
none. Under the order of the claim (per-route chain, then injection wrapper)
the per-route middleware would read `""`; the handle the router installs is
not that one. -/
theorem per_route_chain_runs_inside_wrapper :
    (observedRouter.ServeHTTP NewRecorder (NewRequest "GET" "/foo/bar") TestWorld.init).seen =
      [("global", ""), ("route", "bar"), ("h", "bar")] ∧
    (specOrderHandle [observeParam "route" "param"] observingHandler NewRecorder
        (NewRequest "GET" "/foo/bar") [{ Key := "param", Value := "bar" }] TestWorld.init).seen =
      [("route", ""), ("h", "bar")] ∧
    Recorder.run ((NewRouter Recorder.api [] []).AddRoutes observedAdder "").impl NewRecorder
        (NewRequest "GET" "/foo/bar") [{ Key := "param", Value := "bar" }] TestWorld.init ≠
      [specOrderHandle [observeParam "route" "param"] observingHandler NewRecorder
        (NewRequest "GET" "/foo/bar") [{ Key := "param", Value := "bar" }] TestWorld.init] := by
  refine ⟨by decide, by decide, by decide⟩

/-- C8, amended. For a request that matches a registered route the stages
run in the order: global middleware chain, engine dispatch, parameter-injection
wrapper, per-route middleware chain, user handler. The router's handler is
the global chain around the engine's dispatch, and the dispatch of the request
is the per-route chain of the matched call `apply(m, p, h, mws...)` around `h`,
served with the request to which the wrapper has already attached the map
of the extracted parameters. -/
theorem request_stage_order {σ : Type} (notFound : Handler σ) (gmws : List (Middleware σ))
    (adder : RouteAdder σ) (pfx : String) (w : ResponseWriter) (r : Request) (s : σ)
    (hmatch : (((newHttpRouter notFound gmws).AddRoutes adder pfx).impl.lookup r).isSome = true) :
    ((newHttpRouter notFound gmws).AddRoutes adder pfx).ServeHTTP =
      nest gmws (HttpRouter.ServeHTTP ((newHttpRouter notFound gmws).AddRoutes adder pfx).impl) ∧
    ∃ c ∈ adder, ∃ ps : Params,
      c.m = r.Method ∧ matchPath (pfx ++ c.p) r.Path = some ps ∧
      HttpRouter.ServeHTTP ((newHttpRouter notFound gmws).AddRoutes adder pfx).impl w r s =
        nest c.mws c.h w (r.WithContext (WithValue r.Context CtxKey.pathParamsContextKey
          (CtxVal.stringMap (ps.foldl (fun v p => GoMap.set v p.Key p.Value) GoMap.make)))) s := by
  have hchain : ((newHttpRouter notFound gmws).AddRoutes adder pfx).ServeHTTP =
      nest gmws (HttpRouter.ServeHTTP
        ((newHttpRouter notFound gmws).AddRoutes adder pfx).impl) :=
    Handler_eq_nest HttpRouter.api (HttpRouter.New notFound) gmws adder pfx
  refine ⟨hchain, ?_⟩
  have himpl : ((newHttpRouter notFound gmws).AddRoutes adder pfx).impl =
      (HttpRouter.New notFound).handleAll (registrations adder pfx) :=
    AddRoutes_httprouter _ gmws adder pfx
  rw [himpl] at hmatch ⊢
  cases hl : ((HttpRouter.New notFound).handleAll (registrations adder pfx)).lookup r with
  | none => rw [hl] at hmatch; cases hmatch
  | some hp =>
    obtain ⟨handle, ps⟩ := hp
    have hl2 := hl
    unfold HttpRouter.lookup at hl2
    obtain ⟨rte, hrte, hf⟩ := List.exists_of_findSome?_eq_some hl2
    have hreg : rte ∈ registrations adder pfx := by
      rcases handleAll_routes_sub _ _ rte hrte with h | h
      · cases h
      · exact h
    simp only [registrations, List.mem_map] at hreg
    obtain ⟨c, hc, rfl⟩ := hreg
    cases hmr : Route.matchRequest
        ({ method := c.m, path := pfx ++ c.p, handle := inject (nest c.mws c.h) } : Route σ) r with
    | none => rw [hmr] at hf; cases hf
    | some qs =>
      rw [hmr] at hf
      simp only [Option.map_some', Option.some.injEq, Prod.mk.injEq] at hf
      obtain ⟨hh, hq⟩ := hf
      subst hq
      unfold Route.matchRequest at hmr
      by_cases hm : c.m = r.Method
      · simp only [hm, if_true] at hmr
        refine ⟨c, hc, qs, hm, hmr, ?_⟩
        unfold HttpRouter.ServeHTTP
        rw [hl, ← hh]
        rfl
      · simp only [hm, if_false] at hmr
        cases hmr

/-- An instance of the amended C8: the request `GET /foo/bar` matches the
route of `observedRouter`, whose stages log what they see in the order global
middleware, per-route middleware, handler. -/
theorem request_stage_order_witness :
    (observedRouter.impl.lookup (NewRequest "GET" "/foo/bar")).isSome = true ∧
    (observedRouter.ServeHTTP =
      nest [observeParam "global" "param"] (HttpRouter.ServeHTTP observedRouter.impl) ∧
    ∃ c ∈ observedAdder, ∃ ps : Params,
      c.m = "GET" ∧ matchPath ("" ++ c.p) "/foo/bar" = some ps ∧
      HttpRouter.ServeHTTP observedRouter.impl NewRecorder (NewRequest "GET" "/foo/bar")
          TestWorld.init =
        nest c.mws c.h NewRecorder ((NewRequest "GET" "/foo/bar").WithContext
          (WithValue (NewRequest "GET" "/foo/bar").Context CtxKey.pathParamsContextKey
            (CtxVal.stringMap (ps.foldl (fun v p => GoMap.set v p.Key p.Value) GoMap.make))))
          TestWorld.init) ∧
    (observedRouter.ServeHTTP NewRecorder (NewRequest "GET" "/foo/bar") TestWorld.init).seen =
      [("global", ""), ("route", "bar"), ("h", "bar")] :=
  ⟨by decide,
   request_stage_order (fun _ _ s => s) [observeParam "global" "param"] observedAdder ""
     NewRecorder (NewRequest "GET" "/foo/bar") TestWorld.init (by decide),
   by decide⟩

/-! ## The counting middleware of the tests -/

theorem ServeHTTP_keeps_calls (e : HttpRouter TestWorld)
    (hnf : ∀ w r s, (e.NotFound w r s).calls = s.calls)
    (hroutes : ∀ rte ∈ e.routes, ∀ w r ps s, (rte.handle w r ps s).calls = s.calls)
    (w : ResponseWriter) (r : Request) (s : TestWorld) :
    (e.ServeHTTP w r s).calls = s.calls := by
  unfold HttpRouter.ServeHTTP
  cases hl : e.lookup r with
  | none => exact hnf w r s
  | some hp =>
    obtain ⟨handle, ps⟩ := hp
    unfold HttpRouter.lookup at hl
    obtain ⟨rte, hrte, hf⟩ := List.exists_of_findSome?_eq_some hl
    cases hmr : rte.matchRequest r with
    | none => rw [hmr] at hf; cases hf
    | some qs =>
      rw [hmr] at hf
      simp only [Option.map_some', Option.some.injEq, Prod.mk.injEq] at hf
      rw [← hf.1]
      exact hroutes rte hrte w r ps s

/-- The test `TestRouterWithMiddleware` as an instance of the amended C6: one
counting global middleware (nothing before it, nothing after it), the routes
`GET /foo` and `GET /bar` under `"/prefix"`; after the two requests both
handlers have run once and the counter is 2. -/
theorem middleware_outermost_first_witness :
    (serveAll middlewareRouter
        [(NewRecorder, NewRequest "GET" "/prefix/foo"),
         (NewRecorder, NewRequest "GET" "/prefix/bar")] TestWorld.init).calls = 0 + 2 ∧
    serveAll middlewareRouter
        [(NewRecorder, NewRequest "GET" "/prefix/foo"),
         (NewRecorder, NewRequest "GET" "/prefix/bar")] TestWorld.init =
      { called := ["foo", "bar"], calls := 2, gotParam := "", seen := [] } := by
  refine ⟨?_, by decide⟩
  apply middleware_outermost_first.2.2.2.2.2.2 (HttpRouter TestWorld) HttpRouter.api
    (HttpRouter.New (fun _ _ s => s)) [] [] (testRouteAdder fooBar) "/prefix"
  · intro p hp
    cases hp
  · intro w r s
    apply ServeHTTP_keeps_calls
    · intro w r s
      rfl
    · intro rte hrte w r ps s
      rw [AddRoutes_httprouter] at hrte
      rcases handleAll_routes_sub _ _ rte hrte with h | h
      · cases h
      · simp only [registrations, testRouteAdder, fooBar, List.map_cons, List.map_nil,
          List.mem_cons, List.mem_singleton, List.not_mem_nil, or_false] at h
        rcases h with rfl | rfl <;> rfl

end routegroup
